import Mathlib

/-!
Shallow embedding of the Sutherland–Hodgman polygon-clipping engine from
`static/js/sutherland-hodgman.js`, together with theorems settling the
specification claims about it.  Numbers are modelled as rationals; JS `null`
becomes `Option.none`; the mutable `SutherlandHodgman` instance (its `steps`
array and `currentStepIndex`) is threaded explicitly as a state value.
-/

namespace PolyClip

/-- A 2-D point `{x, y}`. -/
structure Point where
  x : ℚ
  y : ℚ
deriving DecidableEq, Inhabited, Repr

/-- The discriminant of a recorded action (`type` field of the JS object). -/
inductive ActionType where
  | ADD_VERTEX
  | ADD_INTERSECTION
  | SKIP_VERTEX
deriving DecidableEq, Inhabited, Repr

/-- One recorded per-vertex-visit decision. -/
structure Action where
  type : ActionType
  vertex : Point
  reason : String
deriving DecidableEq, Inhabited, Repr

/-- A directed clipping edge `{start, end}`. -/
structure ClipEdge where
  start : Point
  endPt : Point
deriving DecidableEq, Inhabited, Repr

/-- One recorded clipping step (`edgeStepDetails` in the JS source). -/
structure ClipStep where
  clipEdge : ClipEdge
  inputPolygon : List Point
  intersections : List Point
  outputPolygon : List Point
  actions : List Action
deriving DecidableEq, Inhabited, Repr

/-- The mutable state of a `SutherlandHodgman` instance. -/
structure SutherlandHodgman where
  steps : List ClipStep
  currentStepIndex : Int
deriving DecidableEq, Inhabited, Repr

/-- Source function `isInside(point, clipEdgeStart, clipEdgeEnd)`:
`(end.x-start.x)*(p.y-start.y) - (end.y-start.y)*(p.x-start.x) <= 0`. -/
def isInside (point clipEdgeStart clipEdgeEnd : Point) : Bool :=
  decide ((clipEdgeEnd.x - clipEdgeStart.x) * (point.y - clipEdgeStart.y) -
          (clipEdgeEnd.y - clipEdgeStart.y) * (point.x - clipEdgeStart.x) ≤ 0)

/-- Coefficient `A` of the implicit line equation through two points
(`A1 = e.y - s.y`, `A2 = clipEnd.y - clipStart.y` in the source). -/
def lineA (p q : Point) : ℚ := q.y - p.y

/-- Coefficient `B` of the implicit line equation (`B1 = s.x - e.x`). -/
def lineB (p q : Point) : ℚ := p.x - q.x

/-- Coefficient `C` of the implicit line equation (`C1 = e.x*s.y - s.x*e.y`). -/
def lineC (p q : Point) : ℚ := q.x * p.y - p.x * q.y

/-- The determinant `det = A1*B2 - A2*B1` computed by `computeIntersection`. -/
def intersectionDet (s e clipStart clipEnd : Point) : ℚ :=
  lineA s e * lineB clipStart clipEnd - lineA clipStart clipEnd * lineB s e

/-- Source function `isOnSegment(p, s, e)`: `p` lies in the closed bounding box of segment
`s`–`e` (inclusive comparisons against `Math.min`/`Math.max`). -/
def isOnSegment (p s e : Point) : Bool :=
  decide ((min s.x e.x ≤ p.x ∧ p.x ≤ max s.x e.x) ∧
          (min s.y e.y ≤ p.y ∧ p.y ≤ max s.y e.y))

/-- The point `(x, y)` solved by Cramer's rule in `computeIntersection`
(junk when the determinant is zero; the caller guards on that). -/
def solvedPoint (s e clipStart clipEnd : Point) : Point :=
  let det := intersectionDet s e clipStart clipEnd
  ⟨(lineB s e * lineC clipStart clipEnd - lineB clipStart clipEnd * lineC s e) / det,
   (lineA clipStart clipEnd * lineC s e - lineA s e * lineC clipStart clipEnd) / det⟩

/-- Source function `computeIntersection(s, e, clipStart, clipEnd)`: solve the 2×2 system of
the two implicit line equations; return `none` when `det === 0` or when the
solution fails either `isOnSegment` check, else the solution. -/
def computeIntersection (s e clipStart clipEnd : Point) : Option Point :=
  let det := intersectionDet s e clipStart clipEnd
  if det = 0 then
    none
  else
    let p := solvedPoint s e clipStart clipEnd
    if isOnSegment p s e && isOnSegment p clipStart clipEnd then
      some p
    else
      none

/-- The body of the `for` loop of `clipAgainstEdge`: walk the remaining
vertices `e`, carrying `s`, `s_isInside` and the growing `outputList`,
`intersections` and `actions` buffers. -/
def clipLoop (clipEdgeStart clipEdgeEnd : Point) :
    Point → Bool → List Point → List Point → List Point → List Action →
    List Point × List Point × List Action
  | _, _, [], outputList, intersections, actions =>
      (outputList, intersections, actions)
  | s, s_isInside, e :: rest, outputList, intersections, actions =>
    let e_isInside := isInside e clipEdgeStart clipEdgeEnd
    if s_isInside && e_isInside then
      clipLoop clipEdgeStart clipEdgeEnd e e_isInside rest
        (outputList ++ [e]) intersections
        (actions ++ [⟨ActionType.ADD_VERTEX, e, "Both endpoints inside"⟩])
    else if !s_isInside && e_isInside then
      match computeIntersection s e clipEdgeStart clipEdgeEnd with
      | some intersection =>
          clipLoop clipEdgeStart clipEdgeEnd e e_isInside rest
            (outputList ++ [intersection, e]) (intersections ++ [intersection])
            (actions ++
              [⟨ActionType.ADD_INTERSECTION, intersection, "Moving from outside to inside"⟩,
               ⟨ActionType.ADD_VERTEX, e, "Second endpoint inside"⟩])
      | none =>
          clipLoop clipEdgeStart clipEdgeEnd e e_isInside rest
            (outputList ++ [e]) intersections
            (actions ++ [⟨ActionType.ADD_VERTEX, e, "Second endpoint inside"⟩])
    else if s_isInside && !e_isInside then
      match computeIntersection s e clipEdgeStart clipEdgeEnd with
      | some intersection =>
          clipLoop clipEdgeStart clipEdgeEnd e e_isInside rest
            (outputList ++ [intersection]) (intersections ++ [intersection])
            (actions ++
              [⟨ActionType.ADD_INTERSECTION, intersection, "Moving from inside to outside"⟩])
      | none =>
          clipLoop clipEdgeStart clipEdgeEnd e e_isInside rest
            outputList intersections actions
    else
      clipLoop clipEdgeStart clipEdgeEnd e e_isInside rest
        outputList intersections
        (actions ++ [⟨ActionType.SKIP_VERTEX, e, "Both endpoints outside"⟩])

/-- Source function `clipAgainstEdge(subjectPolygon, clipEdgeStart, clipEdgeEnd)`: clip the
polygon against one edge, append the recorded step to `this.steps`, and
return the clipped polygon. -/
def clipAgainstEdge (st : SutherlandHodgman) (subjectPolygon : List Point)
    (clipEdgeStart clipEdgeEnd : Point) : List Point × SutherlandHodgman :=
  if subjectPolygon.length = 0 then
    ([], { st with steps := st.steps ++
      [{ clipEdge := ⟨clipEdgeStart, clipEdgeEnd⟩, inputPolygon := subjectPolygon,
         intersections := [], outputPolygon := [], actions := [] }] })
  else
    let s := subjectPolygon.getLastD default
    let s_isInside := isInside s clipEdgeStart clipEdgeEnd
    let r := clipLoop clipEdgeStart clipEdgeEnd s s_isInside subjectPolygon [] [] []
    (r.1, { st with steps := st.steps ++
      [{ clipEdge := ⟨clipEdgeStart, clipEdgeEnd⟩, inputPolygon := subjectPolygon,
         intersections := r.2.1, outputPolygon := r.1, actions := r.2.2 }] })

/-- The list of directed clip edges `(clipPolygon[i], clipPolygon[(i+1) % n])`
iterated by `clip`. -/
def clipEdges (clipPolygon : List Point) : List (Point × Point) :=
  (List.range clipPolygon.length).map fun i =>
    (clipPolygon.getD i default,
     clipPolygon.getD ((i + 1) % clipPolygon.length) default)

/-- The `for` loop of `clip`: feed the running polygon through
`clipAgainstEdge` for each clip edge in order. -/
def clipEdgesLoop : SutherlandHodgman → List (Point × Point) → List Point →
    List Point × SutherlandHodgman
  | st, [], outputList => (outputList, st)
  | st, (start, endPt) :: rest, outputList =>
    let r := clipAgainstEdge st outputList start endPt
    clipEdgesLoop r.2 rest r.1

/-- Source function `clip(subjectPolygon, clipPolygon)`: reset the ledger, reject polygons
with fewer than 3 points, else clip against every clip edge in order. -/
def clip (st : SutherlandHodgman) (subjectPolygon clipPolygon : List Point) :
    List Point × SutherlandHodgman :=
  let st0 : SutherlandHodgman := { st with steps := [], currentStepIndex := -1 }
  if subjectPolygon.length < 3 ∨ clipPolygon.length < 3 then
    ([], st0)
  else
    clipEdgesLoop st0 (clipEdges clipPolygon) subjectPolygon

/-- Source function `getTotalSteps()`. -/
def getTotalSteps (st : SutherlandHodgman) : Nat := st.steps.length

/-- Models JS array indexing `arr[i]` with an `Int` index: `undefined` is `none`. -/
def jsElem {α : Type} (l : List α) (i : Int) : Option α :=
  if 0 ≤ i then l.get? i.toNat else none

/-- Source function `getStep(index)`: bounds-checked random access. -/
def getStep (st : SutherlandHodgman) (index : Int) : Option ClipStep :=
  if index < 0 ∨ (st.steps.length : Int) ≤ index then none
  else jsElem st.steps index

/-- Source function `getNextStep()`: advance the cursor and return the step there, or `none`
at the end (state returned explicitly). -/
def getNextStep (st : SutherlandHodgman) : Option ClipStep × SutherlandHodgman :=
  if st.currentStepIndex < (st.steps.length : Int) - 1 then
    let st' := { st with currentStepIndex := st.currentStepIndex + 1 }
    (jsElem st'.steps st'.currentStepIndex, st')
  else
    (none, st)

/-- Source function `resetSteps()`. -/
def resetSteps (st : SutherlandHodgman) : SutherlandHodgman :=
  { st with currentStepIndex := -1 }

/-- Fresh instance state, as built by the constructor. -/
def stInit : SutherlandHodgman := ⟨[], -1⟩

/-- The oriented edges `(current, next)` of a polygon in the order
`clipAgainstEdge` visits them: first the closing edge from the last vertex
to the first, then each consecutive pair. -/
def orientedEdges (p : List Point) : List (Point × Point) :=
  (p.getLastD default :: p).zip p

/-- The contribution of one oriented subject edge `(s, e)` under the
four-case Sutherland–Hodgman transition rule: the points appended to the
output, the intersection points recorded, and the actions recorded. -/
def edgeContrib (clipEdgeStart clipEdgeEnd : Point) (se : Point × Point) :
    List Point × List Point × List Action :=
  let s := se.1
  let e := se.2
  let s_isInside := isInside s clipEdgeStart clipEdgeEnd
  let e_isInside := isInside e clipEdgeStart clipEdgeEnd
  if s_isInside && e_isInside then
    ([e], [], [⟨ActionType.ADD_VERTEX, e, "Both endpoints inside"⟩])
  else if !s_isInside && e_isInside then
    match computeIntersection s e clipEdgeStart clipEdgeEnd with
    | some intersection =>
        ([intersection, e], [intersection],
         [⟨ActionType.ADD_INTERSECTION, intersection, "Moving from outside to inside"⟩,
          ⟨ActionType.ADD_VERTEX, e, "Second endpoint inside"⟩])
    | none =>
        ([e], [], [⟨ActionType.ADD_VERTEX, e, "Second endpoint inside"⟩])
  else if s_isInside && !e_isInside then
    match computeIntersection s e clipEdgeStart clipEdgeEnd with
    | some intersection =>
        ([intersection], [intersection],
         [⟨ActionType.ADD_INTERSECTION, intersection, "Moving from inside to outside"⟩])
    | none => ([], [], [])
  else
    ([], [], [⟨ActionType.SKIP_VERTEX, e, "Both endpoints outside"⟩])

/-- The step record produced by one `clipAgainstEdge` pass, expressed
compositionally over the polygon's oriented edges. -/
def edgeStepRecord (p : List Point) (a b : Point) : ClipStep :=
  { clipEdge := ⟨a, b⟩, inputPolygon := p,
    intersections := ((orientedEdges p).map fun se => (edgeContrib a b se).2.1).flatten,
    outputPolygon := ((orientedEdges p).map fun se => (edgeContrib a b se).1).flatten,
    actions := ((orientedEdges p).map fun se => (edgeContrib a b se).2.2).flatten }

/-- The vertices carried by the `ADD_VERTEX` / `ADD_INTERSECTION` actions of
a trace, in order. -/
def addedVertices (actions : List Action) : List Point :=
  (actions.filter fun ac =>
    decide (ac.type = ActionType.ADD_VERTEX ∨ ac.type = ActionType.ADD_INTERSECTION)).map
    Action.vertex

/-- Witness subject polygon: a triangle strictly inside `wClip`. -/
def wSubj : List Point := [⟨1, 1⟩, ⟨4, 1⟩, ⟨2, 3⟩]

/-- Witness clip polygon: a clockwise 10×10 square. -/
def wClip : List Point := [⟨0, 0⟩, ⟨0, 10⟩, ⟨10, 10⟩, ⟨10, 0⟩]

/-- Counterexample subject polygon: a triangle far outside `cexClip`. -/
def cexSubj : List Point := [⟨10, 10⟩, ⟨11, 10⟩, ⟨10, 11⟩]

/-- Counterexample clip polygon: the clockwise unit square. -/
def cexClip : List Point := [⟨0, 0⟩, ⟨0, 1⟩, ⟨1, 1⟩, ⟨1, 0⟩]

/-- Witness ledger state: two recorded steps, cursor on step 0. -/
def wLedger : SutherlandHodgman := ⟨[default, default], 0⟩

/-- Witness step: the first step recorded by clipping `wSubj` by `wClip`. -/
def wStep : ClipStep := ((clip stInit wSubj wClip).2.steps).getD 0 default

/-- One iteration of the `clipAgainstEdge` loop appends exactly the
contribution of the oriented edge `(s, e)` to the three buffers. -/
lemma clipLoop_cons (a b s e : Point) (t : List Point) (out ints : List Point)
    (acts : List Action) :
    clipLoop a b s (isInside s a b) (e :: t) out ints acts =
      clipLoop a b e (isInside e a b) t
        (out ++ (edgeContrib a b (s, e)).1)
        (ints ++ (edgeContrib a b (s, e)).2.1)
        (acts ++ (edgeContrib a b (s, e)).2.2) := by
  cases hs : isInside s a b <;> cases he : isInside e a b <;>
    cases hI : computeIntersection s e a b <;>
      simp [clipLoop, edgeContrib, hs, he, hI]

/-- The accumulator loop of `clipAgainstEdge` computes, buffer by buffer,
the concatenation of the per-edge contributions. -/
lemma clipLoop_join (a b : Point) (t : List Point) :
    ∀ (s : Point) (out ints : List Point) (acts : List Action),
    clipLoop a b s (isInside s a b) t out ints acts =
      (out ++ (((s :: t).zip t).map fun se => (edgeContrib a b se).1).flatten,
       ints ++ (((s :: t).zip t).map fun se => (edgeContrib a b se).2.1).flatten,
       acts ++ (((s :: t).zip t).map fun se => (edgeContrib a b se).2.2).flatten) := by
  induction t with
  | nil => intro s out ints acts; simp [clipLoop]
  | cons e t ih =>
      intro s out ints acts
      rw [clipLoop_cons, ih e]
      simp [List.append_assoc]

/-- Closed form of `clipAgainstEdge`: it returns the join of the per-edge
contributions and appends the corresponding step record. -/
lemma clipAgainstEdge_spec (st : SutherlandHodgman) (p : List Point) (a b : Point) :
    clipAgainstEdge st p a b =
      ((edgeStepRecord p a b).outputPolygon,
       { st with steps := st.steps ++ [edgeStepRecord p a b] }) := by
  cases p with
  | nil => simp [clipAgainstEdge, edgeStepRecord, orientedEdges]
  | cons q qs =>
      have h := clipLoop_join a b (q :: qs) ((q :: qs).getLastD default) [] [] []
      simp only [clipAgainstEdge, List.length_cons, Nat.succ_ne_zero, if_false,
        edgeStepRecord, orientedEdges]
      rw [h]
      simp

/-- The default-valued last element of a nonempty list is a member. -/
lemma getLastD_mem (q : Point) (qs : List Point) (d : Point) :
    (q :: qs).getLastD d ∈ q :: qs := by
  induction qs generalizing q with
  | nil => simp [List.getLastD]
  | cons r rs ih =>
      have : (q :: r :: rs).getLastD d = (r :: rs).getLastD d := rfl
      rw [this]
      exact List.mem_cons_of_mem q (ih r)

/-- Each pass of the main loop appends one step whose `clipEdge` is the edge
just processed, in order. -/
lemma clipEdgesLoop_steps_map (edges : List (Point × Point)) :
    ∀ (st : SutherlandHodgman) (out : List Point),
    ((clipEdgesLoop st edges out).2).steps.map ClipStep.clipEdge =
      st.steps.map ClipStep.clipEdge ++ edges.map fun ab => ClipEdge.mk ab.1 ab.2 := by
  induction edges with
  | nil => intro st out; simp [clipEdgesLoop]
  | cons ab rest ih =>
      intro st out
      obtain ⟨a, b⟩ := ab
      simp only [clipEdgesLoop]
      rw [clipAgainstEdge_spec, ih]
      simp [edgeStepRecord]

/-- The main loop leaves `currentStepIndex` unchanged. -/
lemma clipEdgesLoop_cursor (edges : List (Point × Point)) :
    ∀ (st : SutherlandHodgman) (out : List Point),
    ((clipEdgesLoop st edges out).2).currentStepIndex = st.currentStepIndex := by
  induction edges with
  | nil => intro st out; simp [clipEdgesLoop]
  | cons ab rest ih =>
      intro st out
      obtain ⟨a, b⟩ := ab
      simp only [clipEdgesLoop]
      rw [clipAgainstEdge_spec, ih]

/-- Every step held after the main loop was already held before it or is the
record of one `clipAgainstEdge` pass. -/
lemma clipEdgesLoop_mem_steps (edges : List (Point × Point)) :
    ∀ (st : SutherlandHodgman) (out : List Point) (stp : ClipStep),
    stp ∈ ((clipEdgesLoop st edges out).2).steps →
      stp ∈ st.steps ∨ ∃ p a b, stp = edgeStepRecord p a b := by
  induction edges with
  | nil =>
      intro st out stp h
      exact Or.inl h
  | cons ab rest ih =>
      intro st out stp h
      obtain ⟨a, b⟩ := ab
      simp only [clipEdgesLoop] at h
      rw [clipAgainstEdge_spec] at h
      rcases ih _ _ _ h with hmem | hrec
      · rcases List.mem_append.1 hmem with hold | hnew
        · exact Or.inl hold
        · exact Or.inr ⟨out, a, b, List.mem_singleton.1 hnew⟩
      · exact Or.inr hrec

/-- There are as many clip edges as clip-polygon vertices. -/
lemma clipEdges_length (c : List Point) : (clipEdges c).length = c.length := by
  simp [clipEdges]

/-- Filtering a concatenated trace distributes over the concatenation. -/
lemma addedVertices_append (l1 l2 : List Action) :
    addedVertices (l1 ++ l2) = addedVertices l1 ++ addedVertices l2 := by
  simp [addedVertices, List.filter_append]

/-- The output points of one edge contribution are exactly the vertices of
its `ADD_VERTEX` / `ADD_INTERSECTION` actions. -/
lemma edgeContrib_addedVertices (a b : Point) (se : Point × Point) :
    (edgeContrib a b se).1 = addedVertices (edgeContrib a b se).2.2 := by
  obtain ⟨s, e⟩ := se
  cases hs : isInside s a b <;> cases he : isInside e a b <;>
    cases hI : computeIntersection s e a b <;>
      simp [edgeContrib, addedVertices, hs, he, hI]

/-- Extracting added vertices commutes with flattening a list of traces. -/
lemma addedVertices_flatten (Ls : List (List Action)) :
    addedVertices Ls.flatten = (Ls.map addedVertices).flatten := by
  induction Ls with
  | nil => simp [addedVertices]
  | cons l Ls ih => simp [addedVertices_append, ih]

/-- The output polygon of a recorded step is determined by its action trace. -/
lemma edgeStepRecord_output (p : List Point) (a b : Point) :
    (edgeStepRecord p a b).outputPolygon = addedVertices (edgeStepRecord p a b).actions := by
  simp only [edgeStepRecord, addedVertices_flatten, List.map_map]
  simp [Function.comp_def, ← edgeContrib_addedVertices]

/-- When every remaining vertex is inside the clip edge, the loop only takes
the both-inside case: it copies the vertices through in order. -/
lemma clipLoop_all_inside (a b : Point) (t : List Point) :
    ∀ (s : Point) (out ints : List Point) (acts : List Action),
    (∀ q ∈ t, isInside q a b = true) →
    clipLoop a b s true t out ints acts =
      (out ++ t, ints,
       acts ++ t.map fun e => ⟨ActionType.ADD_VERTEX, e, "Both endpoints inside"⟩) := by
  induction t with
  | nil => intro s out ints acts _; simp [clipLoop]
  | cons e t ih =>
      intro s out ints acts h
      have he : isInside e a b = true := h e (List.mem_cons_self e t)
      simp only [clipLoop, he, Bool.and_self, if_true]
      rw [ih e _ _ _ fun q hq => h q (List.mem_cons_of_mem e hq)]
      simp

/-- A polygon whose vertices all lie inside the clip edge passes through
`clipAgainstEdge` unchanged. -/
lemma clipAgainstEdge_all_inside (st : SutherlandHodgman) (p : List Point)
    (a b : Point) (h : ∀ q ∈ p, isInside q a b = true) :
    (clipAgainstEdge st p a b).1 = p := by
  cases p with
  | nil => simp [clipAgainstEdge]
  | cons q qs =>
      have hs : isInside ((q :: qs).getLastD default) a b = true :=
        h _ (getLastD_mem q qs default)
      simp only [clipAgainstEdge, List.length_cons, Nat.succ_ne_zero, if_false]
      rw [hs, clipLoop_all_inside a b (q :: qs) _ _ _ _ h]
      simp

/-- A polygon inside every processed clip edge survives the main loop
unchanged. -/
lemma clipEdgesLoop_all_inside (edges : List (Point × Point)) :
    ∀ (st : SutherlandHodgman) (out : List Point),
    (∀ q ∈ out, ∀ ab ∈ edges, isInside q ab.1 ab.2 = true) →
    (clipEdgesLoop st edges out).1 = out := by
  induction edges with
  | nil => intro st out _; simp [clipEdgesLoop]
  | cons ab rest ih =>
      intro st out h
      obtain ⟨a, b⟩ := ab
      have hout : (clipAgainstEdge st out a b).1 = out :=
        clipAgainstEdge_all_inside st out a b fun q hq =>
          h q hq (a, b) (List.mem_cons_self (a, b) rest)
      simp only [clipEdgesLoop]
      rw [hout]
      exact ih _ _ fun q hq ab hab => h q hq ab (List.mem_cons_of_mem _ hab)

/-- C1: for every input polygon and clip edge, `clipAgainstEdge` processes
the oriented edges `(current, next)` of the polygon — starting with the edge
closing last vertex to first — and the output polygon, the recorded
intersections and the recorded actions are exactly the concatenation of the
four-case contributions of those edges (both inside: append `next` with
`ADD_VERTEX`; current inside / next outside: append the intersection, if
found, with `ADD_INTERSECTION` and drop `next`; current outside / next
inside: append the intersection, if found, with `ADD_INTERSECTION`, then
`next` with `ADD_VERTEX`; both outside: append nothing, record
`SKIP_VERTEX`). -/
theorem clipAgainstEdge_four_cases (st : SutherlandHodgman) (p : List Point)
    (a b : Point) :
    clipAgainstEdge st p a b =
      (((orientedEdges p).map fun se => (edgeContrib a b se).1).flatten,
       { st with steps := st.steps ++
          [{ clipEdge := ⟨a, b⟩, inputPolygon := p,
             intersections :=
               ((orientedEdges p).map fun se => (edgeContrib a b se).2.1).flatten,
             outputPolygon :=
               ((orientedEdges p).map fun se => (edgeContrib a b se).1).flatten,
             actions :=
               ((orientedEdges p).map fun se => (edgeContrib a b se).2.2).flatten }] }) := by
  rw [clipAgainstEdge_spec]
  rfl

/-- C2 (counterexample): clipping a triangle far outside the unit square
leaves fewer than 3 points right after the second clip edge (the per-step
output lengths are `[3, 0, 0, 0]`), yet `clip` still processes the remaining
clip edges and records a step for each: 4 steps in total, not 2. -/
theorem clip_no_early_termination_cex :
    ((clip stInit cexSubj cexClip).2.steps.map fun stp => stp.outputPolygon.length) =
      [3, 0, 0, 0] ∧
    (clip stInit cexSubj cexClip).2.steps.length = 4 := by
  norm_num [clip, stInit, cexSubj, cexClip, clipEdges, List.range_succ,
    clipEdgesLoop, clipAgainstEdge, clipLoop, isInside, computeIntersection,
    intersectionDet, lineA, lineB, lineC]

/-- C2 (amended): `clip` never stops early — for subject and clip polygons
with at least 3 points it processes every clip edge in order, recording one
step per clip edge with that edge stored in the step, even when the running
output polygon has dropped below 3 points. -/
theorem clip_processes_all_edges (st : SutherlandHodgman) (s c : List Point)
    (hs : 3 ≤ s.length) (hc : 3 ≤ c.length) :
    (clip st s c).2.steps.map ClipStep.clipEdge =
      (clipEdges c).map fun ab => ClipEdge.mk ab.1 ab.2 := by
  have hcond : ¬(s.length < 3 ∨ c.length < 3) := by omega
  simp only [clip]
  rw [if_neg hcond]
  simpa using clipEdgesLoop_steps_map (clipEdges c) _ s

/-- Witness for C2's amended theorem at concrete polygons. -/
theorem clip_processes_all_edges_witness :
    3 ≤ cexSubj.length ∧ 3 ≤ cexClip.length ∧
    (clip stInit cexSubj cexClip).2.steps.map ClipStep.clipEdge =
      (clipEdges cexClip).map fun ab => ClipEdge.mk ab.1 ab.2 :=
  ⟨by decide, by decide,
   clip_processes_all_edges stInit cexSubj cexClip (by decide) (by decide)⟩

/-- C3: after `clip(subjectPolygon, clipPolygon)` on polygons with at least
3 points, `getTotalSteps()` equals the number of vertices (edges) of the
clip polygon. -/
theorem clip_total_steps (st : SutherlandHodgman) (s c : List Point)
    (hs : 3 ≤ s.length) (hc : 3 ≤ c.length) :
    getTotalSteps (clip st s c).2 = c.length := by
  have hcond : ¬(s.length < 3 ∨ c.length < 3) := by omega
  have h2 := congrArg List.length
    (clipEdgesLoop_steps_map (clipEdges c) { steps := [], currentStepIndex := -1 } s)
  simp only [List.length_map, List.length_append, List.length_nil,
    clipEdges_length, Nat.zero_add] at h2
  simp only [clip]
  rw [if_neg hcond]
  exact h2

/-- Witness for C3 at concrete polygons: 4 clip vertices, 4 steps. -/
theorem clip_total_steps_witness :
    3 ≤ wSubj.length ∧ 3 ≤ wClip.length ∧
    getTotalSteps (clip stInit wSubj wClip).2 = wClip.length :=
  ⟨by decide, by decide, clip_total_steps stInit wSubj wClip (by decide) (by decide)⟩

/-- C5: when either polygon has fewer than 3 points, `clip` returns an empty
result with a freshly reset ledger: no steps (`getTotalSteps()` is 0) and
cursor −1. -/
theorem clip_rejects_small_polygons (st : SutherlandHodgman) (s c : List Point)
    (h : s.length < 3 ∨ c.length < 3) :
    clip st s c = ([], ⟨[], -1⟩) ∧
    getTotalSteps (clip st s c).2 = 0 ∧
    (clip st s c).2.currentStepIndex = -1 := by
  have heq : clip st s c = ([], ⟨[], -1⟩) := by
    simp only [clip]
    rw [if_pos h]
  refine ⟨heq, ?_, ?_⟩ <;> (rw [heq]; try rfl)

/-- Witness for C5: a 1-point subject polygon is rejected with no steps. -/
theorem clip_rejects_small_polygons_witness :
    ([⟨0, 0⟩] : List Point).length < 3 ∧
    getTotalSteps (clip stInit [⟨0, 0⟩] wClip).2 = 0 :=
  ⟨by decide,
   (clip_rejects_small_polygons stInit [⟨0, 0⟩] wClip (Or.inl (by decide))).2.1⟩

/-- C8: a subject polygon with at least 3 points whose every vertex is
classified inside by every clip edge's half-plane test is returned by `clip`
unchanged (here even with identical vertex order). -/
theorem clip_contained_subject_unchanged (st : SutherlandHodgman)
    (s c : List Point) (hs : 3 ≤ s.length) (hc : 3 ≤ c.length)
    (h : ∀ q ∈ s, ∀ ab ∈ clipEdges c, isInside q ab.1 ab.2 = true) :
    (clip st s c).1 = s := by
  have hcond : ¬(s.length < 3 ∨ c.length < 3) := by omega
  simp only [clip]
  rw [if_neg hcond]
  exact clipEdgesLoop_all_inside (clipEdges c) _ s h

/-- Witness for C8: a triangle strictly inside a square is returned as is. -/
theorem clip_contained_subject_unchanged_witness :
    (∀ q ∈ wSubj, ∀ ab ∈ clipEdges wClip, isInside q ab.1 ab.2 = true) ∧
    (clip stInit wSubj wClip).1 = wSubj := by
  have h : ∀ q ∈ wSubj, ∀ ab ∈ clipEdges wClip, isInside q ab.1 ab.2 = true := by
    norm_num [wSubj, wClip, clipEdges, List.range_succ, isInside]
  exact ⟨h, clip_contained_subject_unchanged stInit wSubj wClip (by decide) (by decide) h⟩

/-- C9: a point lying exactly on the line through the distinct clip-edge
endpoints (vanishing cross product of `b − a` and `p − a`) is classified as
inside by `isInside`. -/
theorem isInside_on_edge_line (p a b : Point) (_hab : a ≠ b)
    (h : (b.x - a.x) * (p.y - a.y) - (b.y - a.y) * (p.x - a.x) = 0) :
    isInside p a b = true := by
  simp [isInside, h]

/-- Witness for C9: the point `(1, 1)` on the edge from `(0, 0)` to `(2, 2)`. -/
theorem isInside_on_edge_line_witness :
    (Point.mk 0 0 ≠ Point.mk 2 2) ∧ isInside ⟨1, 1⟩ ⟨0, 0⟩ ⟨2, 2⟩ = true := by
  have hab : Point.mk 0 0 ≠ Point.mk 2 2 := by
    intro hcon
    exact absurd (congrArg Point.x hcon) (by norm_num)
  exact ⟨hab, isInside_on_edge_line ⟨1, 1⟩ ⟨0, 0⟩ ⟨2, 2⟩ hab (by norm_num)⟩

/-- C10: every step recorded by `clip` has an output polygon equal, point by
point and in order, to the vertices of its `ADD_VERTEX` and
`ADD_INTERSECTION` actions. -/
theorem step_output_determined_by_actions (st : SutherlandHodgman)
    (s c : List Point) (stp : ClipStep) (h : stp ∈ (clip st s c).2.steps) :
    stp.outputPolygon = addedVertices stp.actions := by
  by_cases hcond : s.length < 3 ∨ c.length < 3
  · simp only [clip] at h
    rw [if_pos hcond] at h
    simp at h
  · simp only [clip] at h
    rw [if_neg hcond] at h
    rcases clipEdgesLoop_mem_steps (clipEdges c) _ s stp h with h0 | ⟨p, a, b, rfl⟩
    · simp at h0
    · exact edgeStepRecord_output p a b

/-- Witness for C10: the first recorded step of a concrete `clip` run. -/
theorem step_output_determined_by_actions_witness :
    wStep ∈ (clip stInit wSubj wClip).2.steps ∧
    wStep.outputPolygon = addedVertices wStep.actions := by
  have hmem : wStep ∈ (clip stInit wSubj wClip).2.steps := by
    norm_num [wStep, wSubj, wClip, clip, stInit, clipEdges, List.range_succ,
      clipEdgesLoop, clipAgainstEdge, clipLoop, isInside]
  exact ⟨hmem, step_output_determined_by_actions stInit wSubj wClip wStep hmem⟩

/-- C6: on any ledger state with cursor at least −1, `getStep i` returns the
recorded step `i` exactly when `0 ≤ i < n` and `none` otherwise;
`getNextStep` advances the cursor by one and returns the step at the new
cursor when the cursor is below `n − 1`, and returns `none` leaving the
state unchanged when the cursor is at the last step or beyond; `resetSteps`
sets the cursor back to −1 and keeps the steps. -/
theorem ledger_operations (st : SutherlandHodgman)
    (h : -1 ≤ st.currentStepIndex) (i : Int) :
    (0 ≤ i ∧ i < (st.steps.length : Int) →
       getStep st i = st.steps.get? i.toNat ∧ (getStep st i).isSome = true) ∧
    (¬(0 ≤ i ∧ i < (st.steps.length : Int)) → getStep st i = none) ∧
    (st.currentStepIndex < (st.steps.length : Int) - 1 →
       (getNextStep st).2.currentStepIndex = st.currentStepIndex + 1 ∧
       (getNextStep st).2.steps = st.steps ∧
       (getNextStep st).1 = st.steps.get? (st.currentStepIndex + 1).toNat ∧
       ((getNextStep st).1).isSome = true) ∧
    ((st.steps.length : Int) - 1 ≤ st.currentStepIndex →
       (getNextStep st).1 = none ∧ (getNextStep st).2 = st) ∧
    (resetSteps st).currentStepIndex = -1 ∧ (resetSteps st).steps = st.steps := by
  refine ⟨?_, ?_, ?_, ?_, rfl, rfl⟩
  · rintro ⟨h0, hlt⟩
    have hcond : ¬(i < 0 ∨ (st.steps.length : Int) ≤ i) := by omega
    have hn : i.toNat < st.steps.length := by omega
    rw [getStep, if_neg hcond, jsElem, if_pos h0]
    exact ⟨rfl, by rw [List.get?_eq_get hn]; rfl⟩
  · intro hout
    rw [getStep]
    by_cases hneg : i < 0
    · rw [if_pos (Or.inl hneg)]
    · have hge : (st.steps.length : Int) ≤ i := by omega
      rw [if_pos (Or.inr hge)]
  · intro hlt
    have h0 : 0 ≤ st.currentStepIndex + 1 := by omega
    have hn : (st.currentStepIndex + 1).toNat < st.steps.length := by omega
    simp [getNextStep, jsElem, hlt, h0, List.get?_eq_get hn, List.getElem?_eq_getElem hn]
  · intro hge
    have hcond : ¬(st.currentStepIndex < (st.steps.length : Int) - 1) := by omega
    rw [getNextStep, if_neg hcond]
    exact ⟨rfl, rfl⟩

/-- Witness for C6 on a two-step ledger with the cursor on step 0. -/
theorem ledger_operations_witness :
    (-1 ≤ wLedger.currentStepIndex ∧
     (0 ≤ (1 : Int) ∧ (1 : Int) < (wLedger.steps.length : Int))) ∧
    getStep wLedger 1 = wLedger.steps.get? (1 : Int).toNat ∧
    (getStep wLedger 1).isSome = true :=
  ⟨⟨by decide, by decide⟩,
   (ledger_operations wLedger (by decide) 1).1 ⟨by decide, by decide⟩⟩

/-- C4 (counterexample): the code compares the determinant with exactly
zero, not with an epsilon tolerance, and checks segment bounds exactly: two
segments meeting at angle `2⁻³⁰` have a determinant of magnitude below
`10⁻⁸` yet an intersection is returned; and a solution missing a segment's
bounding box by only `2⁻⁴⁰` is rejected although the determinant is 2. -/
theorem computeIntersection_no_epsilon_cex :
    intersectionDet ⟨0, 0⟩ ⟨1, 1/1073741824⟩ ⟨0, 0⟩ ⟨1, 0⟩ ≠ 0 ∧
    |intersectionDet ⟨0, 0⟩ ⟨1, 1/1073741824⟩ ⟨0, 0⟩ ⟨1, 0⟩| < 1/100000000 ∧
    computeIntersection ⟨0, 0⟩ ⟨1, 1/1073741824⟩ ⟨0, 0⟩ ⟨1, 0⟩ = some ⟨0, 0⟩ ∧
    computeIntersection ⟨0, 0⟩ ⟨1, 0⟩
      ⟨1 + 1/1099511627776, -1⟩ ⟨1 + 1/1099511627776, 1⟩ = none := by
  norm_num [computeIntersection, solvedPoint, intersectionDet, lineA, lineB,
    lineC, isOnSegment, abs_lt]

/-- C4 (amended): `computeIntersection` returns `none` exactly when the
determinant is exactly zero or the solved point lies outside either
segment's bounding box (inclusive, exact comparisons); any returned point
satisfies both implicit line equations, lies in both bounding boxes, and is
the unique solution of the 2×2 linear system. -/
theorem computeIntersection_exact_characterization (s e cs ce : Point) :
    (computeIntersection s e cs ce = none ↔
       intersectionDet s e cs ce = 0 ∨
         ¬(isOnSegment (solvedPoint s e cs ce) s e = true ∧
           isOnSegment (solvedPoint s e cs ce) cs ce = true)) ∧
    ∀ p : Point, computeIntersection s e cs ce = some p →
       (lineA s e * p.x + lineB s e * p.y + lineC s e = 0 ∧
        lineA cs ce * p.x + lineB cs ce * p.y + lineC cs ce = 0 ∧
        isOnSegment p s e = true ∧ isOnSegment p cs ce = true) ∧
       ∀ q : Point, lineA s e * q.x + lineB s e * q.y + lineC s e = 0 →
         lineA cs ce * q.x + lineB cs ce * q.y + lineC cs ce = 0 → q = p := by
  constructor
  · by_cases hd : intersectionDet s e cs ce = 0
    · simp [computeIntersection, hd]
    · cases h1 : isOnSegment (solvedPoint s e cs ce) s e <;>
        cases h2 : isOnSegment (solvedPoint s e cs ce) cs ce <;>
          simp [computeIntersection, hd, h1, h2]
  · intro p hp
    have hd : intersectionDet s e cs ce ≠ 0 := by
      intro h0
      simp [computeIntersection, h0] at hp
    simp only [computeIntersection] at hp
    rw [if_neg hd] at hp
    cases h1 : isOnSegment (solvedPoint s e cs ce) s e <;>
      cases h2 : isOnSegment (solvedPoint s e cs ce) cs ce <;>
        rw [h1, h2] at hp <;> simp at hp
    obtain rfl := hp.symm
    have hd' : lineA s e * lineB cs ce - lineA cs ce * lineB s e ≠ 0 := by
      rw [intersectionDet] at hd
      exact hd
    refine ⟨⟨?_, ?_, h1, h2⟩, ?_⟩
    · simp only [solvedPoint, intersectionDet]
      field_simp
      ring
    · simp only [solvedPoint, intersectionDet]
      field_simp
      ring
    · rintro ⟨qx, qy⟩ hq1 hq2
      simp only [solvedPoint, intersectionDet, Point.mk.injEq]
      simp only at hq1 hq2
      constructor
      · rw [eq_div_iff hd']
        linear_combination lineB cs ce * hq1 - lineB s e * hq2
      · rw [eq_div_iff hd']
        linear_combination lineA s e * hq2 - lineA cs ce * hq1

/-- Witness for C4's amended theorem: two diagonals crossing at `(1, 1)`. -/
theorem computeIntersection_exact_characterization_witness :
    computeIntersection ⟨0, 0⟩ ⟨2, 2⟩ ⟨0, 2⟩ ⟨2, 0⟩ = some ⟨1, 1⟩ ∧
    lineA ⟨0, 0⟩ ⟨2, 2⟩ * (1 : ℚ) + lineB ⟨0, 0⟩ ⟨2, 2⟩ * (1 : ℚ) +
      lineC ⟨0, 0⟩ ⟨2, 2⟩ = 0 := by
  have hsome : computeIntersection ⟨0, 0⟩ ⟨2, 2⟩ ⟨0, 2⟩ ⟨2, 0⟩ = some ⟨1, 1⟩ := by
    norm_num [computeIntersection, solvedPoint, intersectionDet, lineA, lineB,
      lineC, isOnSegment]
  exact ⟨hsome,
    (((computeIntersection_exact_characterization ⟨0, 0⟩ ⟨2, 2⟩ ⟨0, 2⟩ ⟨2, 0⟩).2
      ⟨1, 1⟩ hsome).1).1⟩

end PolyClip
